import Mathlib

/-!
Verification of the xlsxwriter chart/workbook engine specification.

The repository's own Rust source under scrutiny is `Chart::add_series`
(src/libxlsxwriter/src/chart/mod.rs).  The rest of the engine it drives
(the range-to-formula setters, the workbook graph, the shared-string
table and the XML serializer) lives outside the provided sources, so
those parts are modelled from the specification text and marked as such
in their doc comments.
-/

namespace Xlsx

/-- Error kinds of the engine, from the specification's error-handling
design (InvalidReference, DuplicateName, AlreadyClosed, IOError,
SchemaViolation). -/
inductive XlsxError where
  | invalidReference
  | duplicateName
  | alreadyClosed
  | ioFailure
  | schemaViolation
deriving DecidableEq, Repr

/-- Format bounds: maximum number of rows (1,048,576). -/
def ROW_MAX : Nat := 1048576

/-- Format bounds: maximum number of columns (16,384). -/
def COL_MAX : Nat := 16384

/-- Excel column letters for a zero-based column index: 0 ↦ "A",
25 ↦ "Z", 26 ↦ "AA", 16383 ↦ "XFD" (bijective base 26). -/
def colLetters (c : Nat) : List Char :=
  if c < 26 then [Char.ofNat (65 + c)]
  else colLetters (c / 26 - 1) ++ [Char.ofNat (65 + c % 26)]
decreasing_by
  have h1 : c / 26 < c := Nat.div_lt_self (by omega) (by omega)
  omega

/-- Decimal digit characters of a natural number, most significant
first. -/
def natDigits (n : Nat) : List Char :=
  if n < 10 then [Char.ofNat (48 + n)]
  else natDigits (n / 10) ++ [Char.ofNat (48 + n % 10)]
decreasing_by
  have h1 : n / 10 < n := Nat.div_lt_self (by omega) (by omega)
  omega

/-- Numeric value of a column-letter string in bijective base 26
("A" ↦ 1, "Z" ↦ 26, "AA" ↦ 27). -/
def lettersVal (l : List Char) : Nat :=
  l.foldl (fun a ch => a * 26 + (ch.toNat - 64)) 0

/-- Numeric value of a decimal digit string. -/
def digitsVal (l : List Char) : Nat :=
  l.foldl (fun a ch => a * 10 + (ch.toNat - 48)) 0

theorem charOfNat_toNat {n : Nat} (h : n < 256) : (Char.ofNat n).toNat = n := by
  unfold Char.ofNat
  split
  · rfl
  · rename_i hx
    exact absurd (Or.inl (by omega)) hx

theorem lettersVal_colLetters (c : Nat) : lettersVal (colLetters c) = c + 1 := by
  induction c using Nat.strong_induction_on with
  | _ c ih =>
    by_cases h : c < 26
    · rw [colLetters, if_pos h]
      simp only [lettersVal, List.foldl]
      rw [charOfNat_toNat (by omega)]
      omega
    · rw [colLetters, if_neg h]
      have hlt : c / 26 - 1 < c := by
        have h1 : c / 26 < c := Nat.div_lt_self (by omega) (by omega)
        omega
      have hih := ih (c / 26 - 1) hlt
      simp only [lettersVal] at hih ⊢
      rw [List.foldl_append, hih]
      simp only [List.foldl]
      rw [charOfNat_toNat (by have := Nat.mod_lt c (show 0 < 26 by omega); omega)]
      have h26 : 1 ≤ c / 26 := (Nat.one_le_div_iff (by omega)).mpr (by omega)
      have hmod : c % 26 < 26 := Nat.mod_lt c (by omega)
      have hdm : 26 * (c / 26) + c % 26 = c := Nat.div_add_mod c 26
      omega

theorem digitsVal_natDigits (n : Nat) : digitsVal (natDigits n) = n := by
  induction n using Nat.strong_induction_on with
  | _ n ih =>
    by_cases h : n < 10
    · rw [natDigits, if_pos h]
      simp only [digitsVal, List.foldl]
      rw [charOfNat_toNat (by omega)]
      omega
    · rw [natDigits, if_neg h]
      have hlt : n / 10 < n := Nat.div_lt_self (by omega) (by omega)
      have hih := ih (n / 10) hlt
      simp only [digitsVal] at hih ⊢
      rw [List.foldl_append, hih]
      simp only [List.foldl]
      rw [charOfNat_toNat (by have := Nat.mod_lt n (show 0 < 10 by omega); omega)]
      have hdm : 10 * (n / 10) + n % 10 = n := Nat.div_add_mod n 10
      omega

/-- Upper-case ASCII letter test, used by the reference parser. -/
def isUpperCh (ch : Char) : Bool := 65 ≤ ch.toNat && ch.toNat ≤ 90

/-- ASCII decimal digit test, used by the reference parser. -/
def isDigitCh (ch : Char) : Bool := 48 ≤ ch.toNat && ch.toNat ≤ 57

theorem colLetters_upper (c : Nat) : ∀ ch ∈ colLetters c, isUpperCh ch = true := by
  induction c using Nat.strong_induction_on with
  | _ c ih =>
    by_cases h : c < 26
    · rw [colLetters, if_pos h]
      intro ch hch
      simp only [List.mem_singleton] at hch
      subst hch
      simp only [isUpperCh]
      rw [charOfNat_toNat (by omega)]
      simp only [Bool.and_eq_true, decide_eq_true_eq]
      omega
    · rw [colLetters, if_neg h]
      intro ch hch
      have hlt : c / 26 - 1 < c := by
        have h1 : c / 26 < c := Nat.div_lt_self (by omega) (by omega)
        omega
      rcases List.mem_append.mp hch with hm | hm
      · exact ih (c / 26 - 1) hlt ch hm
      · simp only [List.mem_singleton] at hm
        subst hm
        have hmod : c % 26 < 26 := Nat.mod_lt c (by omega)
        simp only [isUpperCh]
        rw [charOfNat_toNat (by omega)]
        simp only [Bool.and_eq_true, decide_eq_true_eq]
        omega

theorem natDigits_digit (n : Nat) : ∀ ch ∈ natDigits n, isDigitCh ch = true := by
  induction n using Nat.strong_induction_on with
  | _ n ih =>
    by_cases h : n < 10
    · rw [natDigits, if_pos h]
      intro ch hch
      simp only [List.mem_singleton] at hch
      subst hch
      simp only [isDigitCh]
      rw [charOfNat_toNat (by omega)]
      simp only [Bool.and_eq_true, decide_eq_true_eq]
      omega
    · rw [natDigits, if_neg h]
      intro ch hch
      have hlt : n / 10 < n := Nat.div_lt_self (by omega) (by omega)
      rcases List.mem_append.mp hch with hm | hm
      · exact ih (n / 10) hlt ch hm
      · simp only [List.mem_singleton] at hm
        subst hm
        have hmod : n % 10 < 10 := Nat.mod_lt n (by omega)
        simp only [isDigitCh]
        rw [charOfNat_toNat (by omega)]
        simp only [Bool.and_eq_true, decide_eq_true_eq]
        omega

theorem colLetters_ne_nil (c : Nat) : colLetters c ≠ [] := by
  rw [colLetters]
  split
  · simp
  · simp

theorem natDigits_ne_nil (n : Nat) : natDigits n ≠ [] := by
  rw [natDigits]
  split
  · simp
  · simp

/-- Longest leading run of characters satisfying `p`, paired with the
remaining characters (the parser's scanning primitive). -/
def spanP (p : Char → Bool) : List Char → List Char × List Char
  | [] => ([], [])
  | ch :: rest =>
    if p ch then
      let r := spanP p rest
      (ch :: r.1, r.2)
    else ([], ch :: rest)

theorem spanP_eq (p : Char → Bool) (l rest : List Char)
    (hall : ∀ ch ∈ l, p ch = true)
    (hrest : ∀ ch, rest.head? = some ch → p ch = false) :
    spanP p (l ++ rest) = (l, rest) := by
  induction l with
  | nil =>
    cases rest with
    | nil => rfl
    | cons ch tl =>
      have := hrest ch rfl
      simp only [List.nil_append, spanP, this]
      simp
  | cons ch tl ih =>
    have hch : p ch = true := hall ch (by simp)
    simp only [List.cons_append, spanP, hch, if_pos]
    show (ch :: (spanP p (tl ++ rest)).1, (spanP p (tl ++ rest)).2) = (ch :: tl, rest)
    rw [ih (fun x hx => hall x (by simp [hx]))]

/-- Absolute cell reference characters, `$Col$Row` with the row shown
one-based: `cellAbs 0 0 = "$A$1"`. -/
def cellAbs (c r : Nat) : List Char :=
  '$' :: colLetters c ++ '$' :: natDigits (r + 1)

/-- Parse an absolute `$Col$Row` cell reference off the front of the
input, returning the zero-based (column, row) pair and the unconsumed
characters. -/
def parseCellAbs (l : List Char) : Option (Nat × Nat × List Char) :=
  match l with
  | '$' :: rest =>
    let s1 := spanP isUpperCh rest
    match s1.2 with
    | '$' :: rest2 =>
      let s2 := spanP isDigitCh rest2
      if s1.1.isEmpty || s2.1.isEmpty then none
      else some (lettersVal s1.1 - 1, digitsVal s2.1 - 1, s2.2)
    | _ => none
  | _ => none

theorem parseCellAbs_roundtrip (c r : Nat) (rest : List Char)
    (hrest : ∀ ch, rest.head? = some ch → isDigitCh ch = false) :
    parseCellAbs (cellAbs c r ++ rest) = some (c, r, rest) := by
  have hdollarU : isUpperCh '$' = false := by decide
  have hdollarD : isDigitCh '$' = false := by decide
  have hspan1 : spanP isUpperCh (colLetters c ++ '$' :: (natDigits (r + 1) ++ rest))
      = (colLetters c, '$' :: (natDigits (r + 1) ++ rest)) := by
    have := spanP_eq isUpperCh (colLetters c) ('$' :: (natDigits (r + 1) ++ rest))
      (colLetters_upper c)
      (by intro ch hch; simp only [List.head?] at hch
          cases hch; exact hdollarU)
    simpa using this
  have hspan2 : spanP isDigitCh (natDigits (r + 1) ++ rest)
      = (natDigits (r + 1), rest) := by
    exact spanP_eq isDigitCh (natDigits (r + 1)) rest (natDigits_digit (r + 1)) hrest
  simp only [cellAbs, List.cons_append, List.append_assoc, parseCellAbs]
  rw [hspan1]
  simp only [List.cons_append]
  rw [hspan2]
  have hne1 : (colLetters c).isEmpty = false := by
    cases h : colLetters c with
    | nil => exact absurd h (colLetters_ne_nil c)
    | cons a b => rfl
  have hne2 : (natDigits (r + 1)).isEmpty = false := by
    cases h : natDigits (r + 1) with
    | nil => exact absurd h (natDigits_ne_nil (r + 1))
    | cons a b => rfl
  simp only [hne1, hne2, lettersVal_colLetters, digitsVal_natDigits]
  simp

/-- Parse a full absolute range formula `=Sheet!$C$R` or
`=Sheet!$C$R:$C$R` into the sheet-name characters and the zero-based
(first_row, first_col, last_row, last_col) range.  A single-cell
formula denotes the degenerate range with first = last. -/
def parseRangeChars (l : List Char) : Option (List Char × Nat × Nat × Nat × Nat) :=
  match l with
  | '=' :: rest =>
    let s1 := spanP (fun ch => ch != '!') rest
    match s1.2 with
    | '!' :: rest2 =>
      match parseCellAbs rest2 with
      | some (c1, r1, rest3) =>
        match rest3 with
        | [] => some (s1.1, r1, c1, r1, c1)
        | ':' :: rest4 =>
          match parseCellAbs rest4 with
          | some (c2, r2, rest5) =>
            if rest5.isEmpty then some (s1.1, r1, c1, r2, c2)
            else none
          | none => none
        | _ => none
      | none => none
    | _ => none
  | _ => none

/-- Parse a range formula string; see `parseRangeChars`. -/
def parseRangeFormula (s : String) : Option (List Char × Nat × Nat × Nat × Nat) :=
  parseRangeChars s.data

theorem spanP_sheet (sheet rest : List Char) (hsheet : '!' ∉ sheet) :
    spanP (fun ch => ch != '!') (sheet ++ '!' :: rest) = (sheet, '!' :: rest) := by
  apply spanP_eq
  · intro ch hch
    simp only [bne_iff_ne, ne_eq]
    intro hx
    subst hx
    exact hsheet hch
  · intro ch hch
    simp only [List.head?] at hch
    cases hch
    simp

theorem parseRangeChars_range (sheet : List Char) (fr fc lr lc : Nat)
    (hsheet : '!' ∉ sheet) :
    parseRangeChars ('=' :: (sheet ++ '!' :: (cellAbs fc fr ++ ':' :: cellAbs lc lr)))
      = some (sheet, fr, fc, lr, lc) := by
  simp only [parseRangeChars]
  rw [spanP_sheet sheet _ hsheet]
  have h1 : parseCellAbs (cellAbs fc fr ++ ':' :: cellAbs lc lr)
      = some (fc, fr, ':' :: cellAbs lc lr) := by
    apply parseCellAbs_roundtrip
    intro ch hch
    simp only [List.head?] at hch
    cases hch
    decide
  have h2 : parseCellAbs (cellAbs lc lr) = some (lc, lr, []) := by
    have := parseCellAbs_roundtrip lc lr [] (by intro ch hch; simp at hch)
    simpa using this
  simp only [h1, h2]
  simp

theorem parseRangeChars_single (sheet : List Char) (r c : Nat)
    (hsheet : '!' ∉ sheet) :
    parseRangeChars ('=' :: (sheet ++ '!' :: cellAbs c r)) = some (sheet, r, c, r, c) := by
  simp only [parseRangeChars]
  rw [spanP_sheet sheet _ hsheet]
  have h1 : parseCellAbs (cellAbs c r) = some (c, r, []) := by
    have := parseCellAbs_roundtrip c r [] (by intro ch hch; simp at hch)
    simpa using this
  simp only [h1]

/-- Modelled from the spec: the engine's deterministic conversion of an
explicit zero-based integer range to the formula string used by
`set_values` — always the two-endpoint range form
`=SheetName!$ColFirst$RowFirst:$ColLast$RowLast`, even when
first = last.  (The conversion itself lives in the native engine, which
is not among the provided sources.) -/
def valuesFormula (sheet : String) (fr fc lr lc : Nat) : String :=
  String.mk ('=' :: (sheet.data ++ '!' :: (cellAbs fc fr ++ ':' :: cellAbs lc lr)))

/-- Modelled from the spec: the engine's deterministic conversion used
by `set_categories` — the range form, except that a single-cell range
(first = last) is emitted in the one-cell form `=SheetName!$Col$Row`
without the colon.  (The conversion itself lives in the native engine,
which is not among the provided sources.) -/
def categoriesFormula (sheet : String) (fr fc lr lc : Nat) : String :=
  if fr = lr ∧ fc = lc then String.mk ('=' :: (sheet.data ++ '!' :: cellAbs fc fr))
  else String.mk ('=' :: (sheet.data ++ '!' :: (cellAbs fc fr ++ ':' :: cellAbs lc lr)))

/-- Bounds test for a zero-based range, over the integers so that
negative inputs are representable: rows in [0, 1048576), columns in
[0, 16384). -/
def inBounds (fr fc lr lc : Int) : Bool :=
  (0 ≤ fr && fr < (ROW_MAX : Int)) && (0 ≤ fc && fc < (COL_MAX : Int)) &&
    (0 ≤ lr && lr < (ROW_MAX : Int)) && (0 ≤ lc && lc < (COL_MAX : Int))

/-- A chart series' reference state: the two optional formula
strings. -/
structure SeriesState where
  categories : Option String
  values : Option String
deriving DecidableEq, Repr

/-- Modelled from the spec: `ChartSeries.set_values(sheet, first_row,
first_col, last_row, last_col)` converts the explicit integer range to
the equivalent formula string and stores it in the series; an
out-of-range row/column fails with InvalidReference and leaves the
series unchanged.  (The setter lives in series.rs and the native
engine, which are not among the provided sources.) -/
def set_values (st : SeriesState) (sheet : String) (fr fc lr lc : Int) :
    SeriesState × Option XlsxError :=
  if inBounds fr fc lr lc then
    ({ st with values := some (valuesFormula sheet fr.toNat fc.toNat lr.toNat lc.toNat) },
      none)
  else (st, some XlsxError.invalidReference)

/-- Modelled from the spec: `ChartSeries.set_categories(...)`, the
categories counterpart of `set_values`, with the single-cell colon-free
form.  (The setter lives in series.rs and the native engine, which are
not among the provided sources.) -/
def set_categories (st : SeriesState) (sheet : String) (fr fc lr lc : Int) :
    SeriesState × Option XlsxError :=
  if inBounds fr fc lr lc then
    ({ st with
        categories := some (categoriesFormula sheet fr.toNat fc.toNat lr.toNat lc.toNat) },
      none)
  else (st, some XlsxError.invalidReference)

theorem parse_valuesFormula (sheet : String) (fr fc lr lc : Nat)
    (hsheet : '!' ∉ sheet.data) :
    parseRangeFormula (valuesFormula sheet fr fc lr lc)
      = some (sheet.data, fr, fc, lr, lc) := by
  simp only [parseRangeFormula, valuesFormula]
  exact parseRangeChars_range sheet.data fr fc lr lc hsheet

theorem parse_categoriesFormula (sheet : String) (fr fc lr lc : Nat)
    (hsheet : '!' ∉ sheet.data) :
    parseRangeFormula (categoriesFormula sheet fr fc lr lc)
      = some (sheet.data, fr, fc, lr, lc) := by
  simp only [parseRangeFormula, categoriesFormula]
  by_cases h : fr = lr ∧ fc = lc
  · rw [if_pos h]
    obtain ⟨h1, h2⟩ := h
    subst h1
    subst h2
    exact parseRangeChars_single sheet.data fr fc hsheet
  · rw [if_neg h]
    exact parseRangeChars_range sheet.data fr fc lr lc hsheet

theorem not_mem_colLetters_colon (c : Nat) : ':' ∉ colLetters c := by
  intro h
  have := colLetters_upper c _ h
  simp [isUpperCh] at this

theorem not_mem_natDigits_colon (n : Nat) : ':' ∉ natDigits n := by
  intro h
  have := natDigits_digit n _ h
  simp [isDigitCh] at this

theorem not_mem_cellAbs_colon (c r : Nat) : ':' ∉ cellAbs c r := by
  simp only [cellAbs, List.mem_append, List.mem_cons]
  push_neg
  exact ⟨⟨by decide, not_mem_colLetters_colon c⟩, by decide,
    not_mem_natDigits_colon (r + 1)⟩

/-- C1: for every in-bounds range (rows in [0, 1048576), columns in
[0, 16384)), `set_values` and `set_categories` succeed and store
exactly the formula string computed by the deterministic conversions
`valuesFormula`/`categoriesFormula` of their arguments, and parsing
that formula string back recovers exactly the same zero-based
row/column range. -/
theorem set_values_set_categories_roundtrip (st : SeriesState) (sheet : String)
    (fr fc lr lc : Int) (hsheet : '!' ∉ sheet.data)
    (hb : inBounds fr fc lr lc = true) :
    set_values st sheet fr fc lr lc
      = ({ st with
            values := some (valuesFormula sheet fr.toNat fc.toNat lr.toNat lc.toNat) },
          none)
    ∧ parseRangeFormula (valuesFormula sheet fr.toNat fc.toNat lr.toNat lc.toNat)
      = some (sheet.data, fr.toNat, fc.toNat, lr.toNat, lc.toNat)
    ∧ set_categories st sheet fr fc lr lc
      = ({ st with
            categories :=
              some (categoriesFormula sheet fr.toNat fc.toNat lr.toNat lc.toNat) },
          none)
    ∧ parseRangeFormula (categoriesFormula sheet fr.toNat fc.toNat lr.toNat lc.toNat)
      = some (sheet.data, fr.toNat, fc.toNat, lr.toNat, lc.toNat) := by
  refine ⟨?_, ?_, ?_, ?_⟩
  · simp [set_values, hb]
  · exact parse_valuesFormula sheet _ _ _ _ hsheet
  · simp [set_categories, hb]
  · exact parse_categoriesFormula sheet _ _ _ _ hsheet

/-- Witness for C1 at the concrete range of the source's doc example:
sheet "Sheet1", rows 0..4, column 0. -/
theorem set_values_set_categories_roundtrip_witness :
    ('!' ∉ "Sheet1".data ∧ inBounds 0 0 4 0 = true)
    ∧ parseRangeFormula (valuesFormula "Sheet1" 0 0 4 0)
      = some ("Sheet1".data, 0, 0, 4, 0) :=
  ⟨⟨by decide, by decide⟩,
    (set_values_set_categories_roundtrip ⟨none, none⟩ "Sheet1" 0 0 4 0
      (by decide) (by decide)).2.1⟩

/-- C2: for every row/column argument outside the format's bounds
(negative, or row ≥ 1048576, or column ≥ 16384) both setters fail with
InvalidReference and return the series unchanged — the value is not
silently wrapped into range. -/
theorem set_values_set_categories_out_of_range (st : SeriesState) (sheet : String)
    (fr fc lr lc : Int)
    (h : fr < 0 ∨ (ROW_MAX : Int) ≤ fr ∨ fc < 0 ∨ (COL_MAX : Int) ≤ fc ∨
      lr < 0 ∨ (ROW_MAX : Int) ≤ lr ∨ lc < 0 ∨ (COL_MAX : Int) ≤ lc) :
    set_values st sheet fr fc lr lc = (st, some XlsxError.invalidReference)
    ∧ set_categories st sheet fr fc lr lc = (st, some XlsxError.invalidReference) := by
  have hb : inBounds fr fc lr lc = false := by
    simp only [inBounds, Bool.and_eq_false_iff, decide_eq_false_iff_not, not_le, not_lt]
    simp only [ROW_MAX, COL_MAX] at h ⊢
    omega
  constructor
  · simp [set_values, hb]
  · simp [set_categories, hb]

/-- Witness for C2 at a negative first row. -/
theorem set_values_set_categories_out_of_range_witness :
    ((-1 : Int) < 0 ∨ (ROW_MAX : Int) ≤ -1 ∨ (0 : Int) < 0 ∨ (COL_MAX : Int) ≤ 0 ∨
      (4 : Int) < 0 ∨ (ROW_MAX : Int) ≤ 4 ∨ (0 : Int) < 0 ∨ (COL_MAX : Int) ≤ 0)
    ∧ set_values ⟨none, none⟩ "Sheet1" (-1) 0 4 0
      = (⟨none, none⟩, some XlsxError.invalidReference) :=
  ⟨Or.inl (by decide),
    (set_values_set_categories_out_of_range ⟨none, none⟩ "Sheet1" (-1) 0 4 0
      (Or.inl (by decide))).1⟩

/-- C7: for every in-bounds single-cell range (first = last),
`set_values` stores the two-endpoint range form, which contains the
colon separator, while `set_categories` stores the one-cell form
`=Sheet!$Col$Row`, which contains no colon (for a sheet name itself
free of colons). -/
theorem single_cell_values_categories_asymmetry (st : SeriesState) (sheet : String)
    (r c : Int) (hsheet : ':' ∉ sheet.data) (hb : inBounds r c r c = true) :
    (set_values st sheet r c r c).1.values
      = some (valuesFormula sheet r.toNat c.toNat r.toNat c.toNat)
    ∧ valuesFormula sheet r.toNat c.toNat r.toNat c.toNat
      = String.mk ('=' :: (sheet.data ++ '!' ::
          (cellAbs c.toNat r.toNat ++ ':' :: cellAbs c.toNat r.toNat)))
    ∧ ':' ∈ (valuesFormula sheet r.toNat c.toNat r.toNat c.toNat).data
    ∧ (set_categories st sheet r c r c).1.categories
      = some (categoriesFormula sheet r.toNat c.toNat r.toNat c.toNat)
    ∧ categoriesFormula sheet r.toNat c.toNat r.toNat c.toNat
      = String.mk ('=' :: (sheet.data ++ '!' :: cellAbs c.toNat r.toNat))
    ∧ ':' ∉ (categoriesFormula sheet r.toNat c.toNat r.toNat c.toNat).data := by
  have hcat : categoriesFormula sheet r.toNat c.toNat r.toNat c.toNat
      = String.mk ('=' :: (sheet.data ++ '!' :: cellAbs c.toNat r.toNat)) := by
    unfold categoriesFormula
    rw [if_pos]
    exact ⟨rfl, rfl⟩
  refine ⟨by simp [set_values, hb], rfl, ?_, by simp [set_categories, hb], hcat, ?_⟩
  · show ':' ∈ ('=' :: (sheet.data ++ '!' ::
      (cellAbs c.toNat r.toNat ++ ':' :: cellAbs c.toNat r.toNat)))
    simp
  · rw [hcat]
    show ':' ∉ ('=' :: (sheet.data ++ '!' :: cellAbs c.toNat r.toNat))
    simp only [List.mem_cons, List.mem_append]
    push_neg
    exact ⟨by decide, hsheet, by decide, not_mem_cellAbs_colon c.toNat r.toNat⟩

/-- Witness for C7 at sheet "Sheet1", row 2, column 3 (cell D3). -/
theorem single_cell_values_categories_asymmetry_witness :
    (':' ∉ "Sheet1".data ∧ inBounds 2 3 2 3 = true)
    ∧ ':' ∈ (valuesFormula "Sheet1" 2 3 2 3).data
    ∧ ':' ∉ (categoriesFormula "Sheet1" 2 3 2 3).data :=
  ⟨⟨by decide, by decide⟩,
    (single_cell_values_categories_asymmetry ⟨none, none⟩ "Sheet1" 2 3
      (by decide) (by decide)).2.2.1,
    (single_cell_values_categories_asymmetry ⟨none, none⟩ "Sheet1" 2 3
      (by decide) (by decide)).2.2.2.2.2⟩

/-- Modelled from the spec: the binding's `convert_str` (lib.rs, not
among the provided sources), which null-terminates a pre-validated
UTF-8 string before it crosses into the engine. -/
def convert_str (s : String) : List Char := s.data ++ [Char.ofNat 0]

/-- One chart series as retained by the engine: the two optional
formula strings given at `add_series` time.  (`chart_add_series` is
native code, modelled from the spec: it appends a new series holding
the given category/value formulas, without validating them.) -/
structure ChartSeriesData where
  categories : Option String
  values : Option String
deriving DecidableEq, Repr

/-- A chart: its ordered list of series. -/
structure ChartState where
  series : List ChartSeriesData
deriving DecidableEq, Repr

/-- Result of `Chart::add_series`: the updated chart, the updated
workbook constant-string pool, and the returned series handle. -/
structure AddSeriesResult where
  chart : ChartState
  pool : List (List Char)
  handle : ChartSeriesData
deriving DecidableEq, Repr

/-- Embedding of `Chart::add_series`
(src/libxlsxwriter/src/chart/mod.rs lines 167-198): convert each given
formula with `convert_str`, call the native `chart_add_series`
(modelled from the spec as appending a series holding the given
formulas), then push the converted categories buffer and then the
converted values buffer onto the workbook's constant-string pool, and
return the handle to the new series. -/
def add_series (chart : ChartState) (pool : List (List Char))
    (categories values : Option String) : AddSeriesResult :=
  let categories_vec := categories.map convert_str
  let values_vec := values.map convert_str
  let newSeries : ChartSeriesData := ⟨categories, values⟩
  let pool1 := match categories_vec with
    | some x => pool ++ [x]
    | none => pool
  let pool2 := match values_vec with
    | some x => pool1 ++ [x]
    | none => pool1
  { chart := { series := chart.series ++ [newSeries] }, pool := pool2,
    handle := newSeries }

/-- The five XML special characters the spec's serializer contract
requires to be escaped. -/
def xmlSpecial (ch : Char) : Bool :=
  ch = '&' || ch = '<' || ch = '>' || ch = '"' || ch = Char.ofNat 39

/-- Escaping of a single character per the spec's serializer
contract. -/
def escapeChar (ch : Char) : List Char :=
  if ch = '&' then "&amp;".data
  else if ch = '<' then "&lt;".data
  else if ch = '>' then "&gt;".data
  else if ch = '"' then "&quot;".data
  else if ch = Char.ofNat 39 then "&apos;".data
  else [ch]

/-- Modelled from the spec: XML escaping of user-supplied text in the
serializer (the serializer is native code, not among the provided
sources). -/
def xmlEscape (l : List Char) : List Char :=
  l.foldr (fun ch acc => escapeChar ch ++ acc) []

/-- Modelled from the spec: the chart part's categories reference
element for one series (`c:cat` wrapping the formula in `c:f`). -/
def catXml : Option String → List Char
  | none => []
  | some f => "<c:cat><c:numRef><c:f>".data ++ xmlEscape f.data
      ++ "</c:f></c:numRef></c:cat>".data

/-- Modelled from the spec: the chart part's values reference element
for one series (`c:val` wrapping the formula in `c:f`). -/
def valXml : Option String → List Char
  | none => []
  | some f => "<c:val><c:numRef><c:f>".data ++ xmlEscape f.data
      ++ "</c:f></c:numRef></c:val>".data

/-- Modelled from the spec: the chart part's element for one series. -/
def seriesXml (s : ChartSeriesData) : List Char :=
  "<c:ser>".data ++ catXml s.categories ++ valXml s.values ++ "</c:ser>".data

/-- Modelled from the spec: the chart part's series elements, emitted
one per series, walking the chart's series list in order. -/
def chartSeriesXml (c : ChartState) : List (List Char) :=
  c.series.map seriesXml

theorem xmlEscape_id (l : List Char) (h : ∀ ch ∈ l, xmlSpecial ch = false) :
    xmlEscape l = l := by
  induction l with
  | nil => rfl
  | cons ch tl ih =>
    have hch := h ch (by simp)
    simp only [xmlSpecial, Bool.or_eq_false_iff, decide_eq_false_iff_not] at hch
    obtain ⟨⟨⟨⟨h1, h2⟩, h3⟩, h4⟩, h5⟩ := hch
    have hesc : escapeChar ch = [ch] := by
      simp only [escapeChar, if_neg h1, if_neg h2, if_neg h3, if_neg h4, if_neg h5]
    have htl : xmlEscape tl = tl := ih (fun x hx => h x (by simp [hx]))
    show escapeChar ch ++ xmlEscape tl = ch :: tl
    rw [hesc, htl]
    rfl

/-- C3: serialization emits a chart's series in exactly the order the
`add_series` calls appended them: adding series A, then B, then C
yields the series elements of A, B, C, in that order, after whatever
the chart already held. -/
theorem add_series_insertion_order (ch : ChartState) (pool : List (List Char))
    (ca va cb vb cc vc : Option String) :
    let r1 := add_series ch pool ca va
    let r2 := add_series r1.chart r1.pool cb vb
    let r3 := add_series r2.chart r2.pool cc vc
    r3.chart.series = ch.series ++ [⟨ca, va⟩, ⟨cb, vb⟩, ⟨cc, vc⟩]
    ∧ chartSeriesXml r3.chart
      = chartSeriesXml ch
        ++ [seriesXml ⟨ca, va⟩, seriesXml ⟨cb, vb⟩, seriesXml ⟨cc, vc⟩] := by
  refine ⟨?_, ?_⟩ <;> simp [add_series, chartSeriesXml]

/-- C9: `Chart::add_series` is total — for every pair of optional
category/values strings, however malformed as formulas, it appends
exactly one series holding those strings unvalidated and returns its
handle; no error is possible (the result type has no error case). -/
theorem add_series_total (ch : ChartState) (pool : List (List Char))
    (categories values : Option String) :
    (add_series ch pool categories values).chart.series
      = ch.series ++ [⟨categories, values⟩]
    ∧ (add_series ch pool categories values).handle
      = ⟨categories, values⟩ := by
  constructor <;> simp [add_series]

/-- C10: one `add_series` call appends to the constant-string pool
exactly the NUL-terminated conversions of the `some` formula
arguments, categories first and then values (0, 1, or 2 new entries),
and the existing pool entries are all kept unchanged in place. -/
theorem add_series_pool_effect (ch : ChartState) (pool : List (List Char))
    (categories values : Option String) :
    (add_series ch pool categories values).pool
      = pool ++ (categories.map convert_str).toList
          ++ (values.map convert_str).toList
    ∧ (add_series ch pool categories values).pool.take pool.length = pool := by
  cases categories <;> cases values <;>
    simp [add_series, List.take_append_of_le_length, List.take_left]

/-- C6: a non-contiguous (parenthesized union) series reference — any
formula string free of the five XML-special characters, such as
`=(Sheet1!$A$1:$A$5,Sheet1!$A$10:$A$18)` — passed to `add_series` is
preserved character-for-character: the returned series handle holds the
exact string, interning pushes exactly its NUL-terminated characters
(dropping the terminator recovers the string), and the chart-part
serialization embeds the string verbatim between the fixed formula
tags, neither reformatted nor split. -/
theorem add_series_preserves_reference (ch : ChartState) (pool : List (List Char))
    (s : String) (h : ∀ c ∈ s.data, xmlSpecial c = false) :
    (add_series ch pool (some s) (some s)).handle = ⟨some s, some s⟩
    ∧ (add_series ch pool (some s) (some s)).pool
      = pool ++ [s.data ++ [Char.ofNat 0], s.data ++ [Char.ofNat 0]]
    ∧ (s.data ++ [Char.ofNat 0]).dropLast = s.data
    ∧ catXml (some s)
      = "<c:cat><c:numRef><c:f>".data ++ s.data ++ "</c:f></c:numRef></c:cat>".data
    ∧ valXml (some s)
      = "<c:val><c:numRef><c:f>".data ++ s.data ++ "</c:f></c:numRef></c:val>".data
    ∧ seriesXml (add_series ch pool (some s) (some s)).handle
      = "<c:ser>".data
        ++ ("<c:cat><c:numRef><c:f>".data ++ s.data ++ "</c:f></c:numRef></c:cat>".data)
        ++ ("<c:val><c:numRef><c:f>".data ++ s.data ++ "</c:f></c:numRef></c:val>".data)
        ++ "</c:ser>".data := by
  have hesc := xmlEscape_id s.data h
  refine ⟨rfl, ?_, ?_, ?_, ?_, ?_⟩
  · simp [add_series, convert_str]
  · simp
  · simp only [catXml, hesc]
  · simp only [valXml, hesc]
  · simp only [seriesXml, add_series, catXml, valXml, hesc]

/-- Witness for C6 at the spec's own non-contiguous example string. -/
theorem add_series_preserves_reference_witness :
    (∀ c ∈ "=(Sheet1!$A$1:$A$5,Sheet1!$A$10:$A$18)".data, xmlSpecial c = false)
    ∧ catXml (some "=(Sheet1!$A$1:$A$5,Sheet1!$A$10:$A$18)")
      = "<c:cat><c:numRef><c:f>".data
        ++ "=(Sheet1!$A$1:$A$5,Sheet1!$A$10:$A$18)".data
        ++ "</c:f></c:numRef></c:cat>".data :=
  ⟨by decide,
    (add_series_preserves_reference ⟨[]⟩ []
      "=(Sheet1!$A$1:$A$5,Sheet1!$A$10:$A$18)" (by decide)).2.2.2.1⟩

/-- Modelled from the spec: the workbook graph's state — the ordered
sheet names, the closed flag, and the output produced by `close()`.
(workbook.rs and the native engine are not among the provided
sources.) -/
structure WorkbookState where
  sheets : List String
  closed : Bool
  output : Option (List Char)
deriving DecidableEq, Repr

/-- A fresh workbook: no sheets, not closed, no output. -/
def emptyWorkbook : WorkbookState := ⟨[], false, none⟩

/-- Modelled from the spec: the serialize-and-package pipeline run by
`close()`, a deterministic function of the workbook contents. -/
def packageOutput (wb : WorkbookState) : List Char :=
  "<workbook>".data
    ++ (wb.sheets.map
        (fun n => "<sheet>".data ++ xmlEscape n.data ++ "</sheet>".data)).flatten
    ++ "</workbook>".data

/-- Modelled from the spec: `close()` runs the pipeline exactly once;
a second call fails with AlreadyClosed and alters nothing. -/
def close (wb : WorkbookState) : WorkbookState × Option XlsxError :=
  if wb.closed then (wb, some XlsxError.alreadyClosed)
  else ({ wb with closed := true, output := some (packageOutput wb) }, none)

/-- Case-insensitive key of a sheet name (Excel sheet names compare
case-insensitively). -/
def lowerName (s : String) : String := String.mk (s.data.map Char.toLower)

/-- Modelled from the spec: `add_worksheet` — auto-names the new sheet
`Sheet(n+1)` when no name is given; a requested name fails with
DuplicateName exactly when it collides case-insensitively with an
existing sheet's name; any mutation after `close()` fails with
AlreadyClosed.  (workbook.rs and the native engine are not among the
provided sources.) -/
def add_worksheet (wb : WorkbookState) (name : Option String) :
    WorkbookState × Except XlsxError String :=
  if wb.closed then (wb, Except.error XlsxError.alreadyClosed)
  else
    match name with
    | none =>
      let n := "Sheet" ++ Nat.repr (wb.sheets.length + 1)
      ({ wb with sheets := wb.sheets ++ [n] }, Except.ok n)
    | some n =>
      if wb.sheets.any (fun m => lowerName m = lowerName n) then
        (wb, Except.error XlsxError.duplicateName)
      else ({ wb with sheets := wb.sheets ++ [n] }, Except.ok n)

/-- C4: `close()` succeeds once on an open workbook and records the
package output; a second `close()` returns AlreadyClosed and leaves
the whole workbook state — in particular the already-written output —
unchanged; and a mutation attempted after `close()` (adding a sheet,
named or unnamed) also fails with AlreadyClosed and changes nothing. -/
theorem close_twice_already_closed (wb : WorkbookState) (nm : String)
    (h : wb.closed = false) :
    (close wb).2 = none
    ∧ (close wb).1.output = some (packageOutput wb)
    ∧ close (close wb).1 = ((close wb).1, some XlsxError.alreadyClosed)
    ∧ add_worksheet (close wb).1 none
      = ((close wb).1, Except.error XlsxError.alreadyClosed)
    ∧ add_worksheet (close wb).1 (some nm)
      = ((close wb).1, Except.error XlsxError.alreadyClosed) := by
  refine ⟨?_, ?_, ?_, ?_, ?_⟩ <;> simp [close, add_worksheet, h]

/-- Witness for C4 on a fresh workbook. -/
theorem close_twice_already_closed_witness :
    emptyWorkbook.closed = false
    ∧ close (close emptyWorkbook).1
      = ((close emptyWorkbook).1, some XlsxError.alreadyClosed) :=
  ⟨rfl, (close_twice_already_closed emptyWorkbook "Data" rfl).2.2.1⟩

/-- The workbook obtained by `n` successive unnamed `add_worksheet`
calls on a fresh workbook. -/
def addNSheets : Nat → WorkbookState
  | 0 => emptyWorkbook
  | n + 1 => (add_worksheet (addNSheets n) none).1

theorem addNSheets_spec (n : Nat) :
    (addNSheets n).closed = false
    ∧ (addNSheets n).sheets
      = (List.range n).map (fun i => "Sheet" ++ Nat.repr (i + 1)) := by
  induction n with
  | zero => exact ⟨rfl, rfl⟩
  | succ n ih =>
    obtain ⟨hc, hs⟩ := ih
    refine ⟨by simp [addNSheets, add_worksheet, hc], ?_⟩
    simp [addNSheets, add_worksheet, hc, hs, List.range_succ]

/-- C8: unnamed `add_worksheet` calls generate the name sequence
Sheet1, Sheet2, …, and a requested name fails with DuplicateName
exactly when it collides case-insensitively with an existing sheet's
name (otherwise the sheet is appended under the requested name). -/
theorem add_worksheet_names (n : Nat) (wb : WorkbookState) (nm : String)
    (h : wb.closed = false) :
    (addNSheets n).sheets
      = (List.range n).map (fun i => "Sheet" ++ Nat.repr (i + 1))
    ∧ ((add_worksheet wb (some nm)).2 = Except.error XlsxError.duplicateName
        ↔ ∃ m ∈ wb.sheets, lowerName m = lowerName nm)
    ∧ (¬(∃ m ∈ wb.sheets, lowerName m = lowerName nm) →
        add_worksheet wb (some nm)
          = ({ wb with sheets := wb.sheets ++ [nm] }, Except.ok nm)) := by
  refine ⟨(addNSheets_spec n).2, ?_, ?_⟩
  · by_cases hd : wb.sheets.any (fun m => lowerName m = lowerName nm)
    · simp only [add_worksheet, h, Bool.false_eq_true, if_false, hd, if_true]
      simp only [List.any_eq_true, decide_eq_true_eq] at hd
      simpa using hd
    · simp only [add_worksheet, h, Bool.false_eq_true, if_false, hd, if_false]
      simp only [List.any_eq_true, decide_eq_true_eq] at hd
      constructor
      · intro hx
        exact absurd hx (by simp)
      · intro hx
        exact absurd hx hd
  · intro hno
    have hd : wb.sheets.any (fun m => lowerName m = lowerName nm) = false := by
      by_contra hx
      rw [Bool.not_eq_false] at hx
      simp only [List.any_eq_true, decide_eq_true_eq] at hx
      exact hno hx
    simp [add_worksheet, h, hd]

/-- Witness for C8: after two auto-named sheets, requesting "SHEET1"
collides case-insensitively with "Sheet1". -/
theorem add_worksheet_names_witness :
    (addNSheets 2).closed = false
    ∧ (addNSheets 2).sheets
      = (List.range 2).map (fun i => "Sheet" ++ Nat.repr (i + 1))
    ∧ (add_worksheet (addNSheets 2) (some "SHEET1")).2
      = Except.error XlsxError.duplicateName :=
  ⟨by decide, (add_worksheet_names 2 (addNSheets 2) "SHEET1" (by decide)).1,
    ((add_worksheet_names 2 (addNSheets 2) "SHEET1" (by decide)).2.1).mpr
      ⟨"Sheet1", by decide, by decide⟩⟩

/-- Position of the first entry equal to `s` in the table (the table's
length when absent). -/
def tableIdx (t : List String) (s : String) : Nat :=
  match t with
  | [] => 0
  | x :: rest => if x = s then 0 else tableIdx rest s + 1

theorem tableIdx_append_of_mem (t1 t2 : List String) (s : String) (h : s ∈ t1) :
    tableIdx (t1 ++ t2) s = tableIdx t1 s := by
  induction t1 with
  | nil => simp at h
  | cons x rest ih =>
    by_cases hx : x = s
    · simp [tableIdx, hx]
    · rcases List.mem_cons.mp h with h1 | h1
      · exact absurd h1.symm hx
      · simp [tableIdx, hx, ih h1]

theorem tableIdx_self_append (t : List String) (s : String) (h : s ∉ t) :
    tableIdx (t ++ [s]) s = t.length := by
  induction t with
  | nil => simp [tableIdx]
  | cons x rest ih =>
    have hx : ¬x = s := fun he => h (by simp [he])
    have hr : s ∉ rest := fun hm => h (by simp [hm])
    simp [tableIdx, hx, ih hr]

theorem getD_tableIdx (t : List String) (s : String) (h : s ∈ t) :
    t.getD (tableIdx t s) "" = s := by
  induction t with
  | nil => simp at h
  | cons x rest ih =>
    by_cases hx : x = s
    · simp [tableIdx, hx]
    · rcases List.mem_cons.mp h with h1 | h1
      · exact absurd h1.symm hx
      · simp only [tableIdx, hx, if_false, List.getD_cons_succ]
        exact ih h1

/-- Modelled from the spec: interning one string into the workbook's
shared-string table — the table holds the interned contents in
first-occurrence order; the returned index is the position of the
unique entry with that content, a new entry being appended only on the
content's first occurrence.  (The string table is native code, not
among the provided sources.) -/
def internStr (t : List String) (s : String) : List String × Nat :=
  if s ∈ t then (t, tableIdx t s)
  else (t ++ [s], t.length)

/-- Writing a sequence of cell strings through the table: the final
table and, per cell, the string-table index the cell stores. -/
def writeStrings (t : List String) : List String → List String × List Nat
  | [] => (t, [])
  | s :: rest =>
    let r1 := internStr t s
    let r2 := writeStrings r1.1 rest
    (r2.1, r1.2 :: r2.2)

theorem writeStrings_grows (ws : List String) :
    ∀ t : List String, ∃ ext, (writeStrings t ws).1 = t ++ ext := by
  induction ws with
  | nil => intro t; exact ⟨[], by simp [writeStrings]⟩
  | cons s rest ih =>
    intro t
    by_cases hs : s ∈ t
    · obtain ⟨e2, he2⟩ := ih t
      refine ⟨e2, ?_⟩
      simp only [writeStrings, internStr, if_pos hs]
      exact he2
    · obtain ⟨e2, he2⟩ := ih (t ++ [s])
      refine ⟨[s] ++ e2, ?_⟩
      simp only [writeStrings, internStr, if_neg hs]
      rw [he2, List.append_assoc]

theorem writeStrings_mem (ws : List String) :
    ∀ (t : List String) (s : String),
      s ∈ (writeStrings t ws).1 ↔ s ∈ t ∨ s ∈ ws := by
  induction ws with
  | nil => intro t s; simp [writeStrings]
  | cons w rest ih =>
    intro t s
    by_cases hw : w ∈ t
    · simp only [writeStrings, internStr, if_pos hw, ih t s, List.mem_cons]
      constructor
      · rintro (h1 | h1)
        · exact Or.inl h1
        · exact Or.inr (Or.inr h1)
      · rintro (h1 | h1 | h1)
        · exact Or.inl h1
        · exact Or.inl (h1 ▸ hw)
        · exact Or.inr h1
    · simp only [writeStrings, internStr, if_neg hw, ih (t ++ [w]) s,
        List.mem_append, List.mem_singleton, List.mem_cons]
      tauto

theorem writeStrings_nodup (ws : List String) :
    ∀ t : List String, t.Nodup → (writeStrings t ws).1.Nodup := by
  induction ws with
  | nil => intro t ht; simpa [writeStrings] using ht
  | cons w rest ih =>
    intro t ht
    by_cases hw : w ∈ t
    · simp only [writeStrings, internStr, if_pos hw]
      exact ih t ht
    · simp only [writeStrings, internStr, if_neg hw]
      refine ih (t ++ [w]) ?_
      rw [List.nodup_append]
      refine ⟨ht, List.nodup_singleton w, ?_⟩
      intro x hx
      simp only [List.mem_singleton]
      intro he
      exact hw (he ▸ hx)

theorem writeStrings_indices (ws : List String) :
    ∀ t : List String,
      (writeStrings t ws).2
        = ws.map (fun s => tableIdx (writeStrings t ws).1 s) := by
  induction ws with
  | nil => intro t; simp [writeStrings]
  | cons w rest ih =>
    intro t
    have hhead : (internStr t w).2
        = tableIdx (writeStrings (internStr t w).1 rest).1 w := by
      obtain ⟨ext, hext⟩ := writeStrings_grows rest (internStr t w).1
      by_cases hw : w ∈ t
      · simp only [internStr, if_pos hw] at hext ⊢
        rw [hext, tableIdx_append_of_mem t ext w hw]
      · simp only [internStr, if_neg hw] at hext ⊢
        rw [hext, tableIdx_append_of_mem (t ++ [w]) ext w (by simp),
          tableIdx_self_append t w hw]
    calc (writeStrings t (w :: rest)).2
        = (internStr t w).2 :: (writeStrings (internStr t w).1 rest).2 := rfl
      _ = tableIdx (writeStrings (internStr t w).1 rest).1 w
            :: rest.map (fun s => tableIdx (writeStrings (internStr t w).1 rest).1 s) := by
          rw [hhead, ih (internStr t w).1]
      _ = (w :: rest).map (fun s => tableIdx (writeStrings t (w :: rest)).1 s) := rfl

/-- C5: writing any sequence of cell strings through the shared-string
table yields a duplicate-free table (identical contents occupy exactly
one entry) whose entries are exactly the written contents, created on
first occurrence; every cell stores the table position of its content —
so cells with identical content resolve to the same index, and that
index looks the content back up — and entries already in the table are
never removed or moved for the table's lifetime. -/
theorem string_table_dedup (ws t0 : List String) :
    ((writeStrings [] ws).1).Nodup
    ∧ (∀ s, s ∈ (writeStrings [] ws).1 ↔ s ∈ ws)
    ∧ (writeStrings [] ws).2
      = ws.map (fun s => tableIdx (writeStrings [] ws).1 s)
    ∧ (∀ s ∈ ws,
        (writeStrings [] ws).1.getD (tableIdx (writeStrings [] ws).1 s) "" = s)
    ∧ (writeStrings t0 ws).1.take t0.length = t0 := by
  refine ⟨writeStrings_nodup ws [] (List.nodup_nil), ?_, writeStrings_indices ws [], ?_, ?_⟩
  · intro s
    simpa using writeStrings_mem ws [] s
  · intro s hs
    exact getD_tableIdx _ s ((writeStrings_mem ws [] s).mpr (Or.inr hs))
  · obtain ⟨ext, hext⟩ := writeStrings_grows ws t0
    rw [hext, List.take_left]

end Xlsx
